import Mathlib

/-!
Verification of the study-suite repository (cl_gen.py and yt_assist.py)
against its natural-language specification.

Modelling conventions:
* Python strings are modelled as `List Char`; byte strings as `List Nat`
  (each element a byte value below 256).
* Calls to external services (the language model, `json.loads`, `eval`)
  are fallible: each is modelled by its outcome, an `Option` of the
  parsed value, where `none` means the call raised.
* Python functions that can raise an uncaught exception are modelled
  with `Except String`, the error message naming the Python exception.
-/

namespace StudySuite

/-- Python strings are modelled as lists of characters. -/
abbrev Str := List Char

/-- ASCII lower-casing of one character, as Python `str.lower` acts on
the ASCII range that the repository handles. -/
def asciiLowerChar (c : Char) : Char :=
  if 'A' ≤ c ∧ c ≤ 'Z' then Char.ofNat (c.toNat + 32) else c

/-- Python `s.lower()`: character-wise ASCII lower-casing. -/
def lowerStr (s : Str) : Str := s.map asciiLowerChar

/-- Python `needle in hay` on strings: substring containment. -/
def pyIn (needle hay : Str) : Bool :=
  hay.tails.any (fun t => needle.isPrefixOf t)

/-- Python `" ".join(xs)`. -/
def joinSpace (xs : List Str) : Str := List.intercalate [' '] xs

/-- The structured résumé dictionary built by `parse_resume_to_json`
in cl_gen.py: five categories, each a list of strings. -/
structure ResumeData where
  skills : List Str
  experience : List Str
  achievements : List Str
  education : List Str
  projects : List Str
deriving DecidableEq

/-- A Python value as returned by `eval` on the keyword-extraction
model output in `get_ats_score` (cl_gen.py line 200): an integer, a
string, or a list of values. -/
inductive PyVal where
  | int : Int → PyVal
  | str : Str → PyVal
  | list : List PyVal → PyVal

/-- The un-lowered concatenation built in `get_ats_score`
(cl_gen.py lines 177-183):
`" ".join(skills) + " " + " ".join(experience) + " " + " ".join(projects)`. -/
def rawResumeText (d : ResumeData) : Str :=
  joinSpace d.skills ++ [' '] ++ joinSpace d.experience ++ [' '] ++ joinSpace d.projects

/-- The searchable résumé text of `get_ats_score`: the concatenation
lowered by `.lower()` (cl_gen.py line 183). -/
def resumeSearchText (d : ResumeData) : Str := lowerStr (rawResumeText d)

/-- Iterating Python-style over the `keywords` value in the list
comprehensions of `get_ats_score` (cl_gen.py lines 204-205):
iterating a list whose elements are all strings yields those strings;
iterating a string yields its characters as one-character strings;
any other iteration target, or a non-string list element (on which
`kw.lower()` is called), raises. -/
def kwAsStrList : PyVal → Except String (List Str)
  | PyVal.list xs =>
      xs.mapM (fun x =>
        match x with
        | PyVal.str s => Except.ok s
        | _ => Except.error "AttributeError: lower")
  | PyVal.str s => Except.ok (s.map (fun c => [c]))
  | PyVal.int _ => Except.error "TypeError: int object is not iterable"

/-- The keyword-match test of `get_ats_score` (cl_gen.py line 204):
`kw.lower() in resume_text`. -/
def kwMatches (d : ResumeData) (kw : Str) : Bool :=
  pyIn (lowerStr kw) (resumeSearchText d)

/-- Round-half-to-even of a rational to an integer, the tie-breaking
rule IEEE 754 binary64 arithmetic uses: the floor when the fractional
part is below one half, the ceiling when above, the even neighbour at
an exact half. -/
def rhe (q : ℚ) : ℤ :=
  if q - ⌊q⌋ < 1/2 then ⌊q⌋
  else if 1/2 < q - ⌊q⌋ then ⌊q⌋ + 1
  else if ⌊q⌋ % 2 = 0 then ⌊q⌋ else ⌊q⌋ + 1

/-- The binary exponent ⌊log2 q⌋ of a positive rational, computed from
the bit lengths of numerator and denominator with a one-step
correction (the quotient of the two bit-length bounds pins the
exponent to within one). -/
def ilog2 (q : ℚ) : ℤ :=
  if (2:ℚ) ^ ((Nat.log2 q.num.toNat : ℤ) - (Nat.log2 q.den : ℤ)) ≤ q
  then (Nat.log2 q.num.toNat : ℤ) - (Nat.log2 q.den : ℤ)
  else (Nat.log2 q.num.toNat : ℤ) - (Nat.log2 q.den : ℤ) - 1

/-- Correct rounding of a positive rational to an IEEE-754 binary64
value (round to nearest, ties to even): the significand is rounded to
53 bits at the value's own binary exponent, clamped below at the
subnormal scale 2^(-1022) so that subnormal precision and underflow to
zero are modelled as well. Overflow to infinity is not modelled; the
program only ever rounds values between 0 and about 100. -/
def roundB64Pos (q : ℚ) : ℚ :=
  ((rhe (q * 2 ^ ((52:ℤ) - max (ilog2 q) (-1022))) : ℤ) : ℚ) /
    2 ^ ((52:ℤ) - max (ilog2 q) (-1022))

/-- Correct rounding of a rational to binary64, extended to zero and,
by the sign symmetry of round-to-nearest, to negative values. -/
def roundB64 (q : ℚ) : ℚ :=
  if 0 < q then roundB64Pos q
  else if q < 0 then -roundB64Pos (-q)
  else 0

/-- Python `int(x)` on a float value: truncation toward zero. -/
def pyIntTrunc (q : ℚ) : ℤ := if q < 0 then -⌊-q⌋ else ⌊q⌋

/-- cl_gen.py line 207, `int((len(matches) / len(keywords)) * 100)`,
evaluated the way CPython does: the true division of the two ints is
the correctly rounded binary64 quotient, the product with 100 (100 is
exact in binary64) is again correctly rounded, and `int` truncates
toward zero. Because of the two float roundings this can differ from
the exact integer ⌊100 * m / k⌋: for 29 matched of 50 keywords the
float product is just below 58 and the result is 57, not 58. -/
def pyFloatScorePct (m k : Nat) : Nat :=
  (pyIntTrunc (roundB64 (roundB64 ((m : ℚ) / (k : ℚ)) * 100))).toNat

/-- `get_ats_score` from cl_gen.py (lines 161-209), after the external
keyword-extraction call. The call and the `eval` of its output are
modelled by their outcome `evalResult`: `none` when `eval` raised (the
`except` branch sets `keywords = []`), `some v` when it produced the
value `v`. The score on line 207 is computed through binary64 float
arithmetic, modelled by `pyFloatScorePct`. Returns the tuple
`(score, matches, missing)`, or an error when the list comprehensions
raise an uncaught exception. -/
def getAtsScore (evalResult : Option PyVal) (d : ResumeData) :
    Except String (Nat × List Str × List Str) :=
  let keywords := evalResult.getD (PyVal.list [])
  match kwAsStrList keywords with
  | Except.error e => Except.error e
  | Except.ok kws =>
      let matchedKws := kws.filter (fun kw => kwMatches d kw)
      let missing := kws.filter (fun kw => ! kwMatches d kw)
      let score := if kws.isEmpty then 0 else pyFloatScorePct matchedKws.length kws.length
      Except.ok (score, matchedKws, missing)

/-- A JSON value as produced by Python `json.loads`
(cl_gen.py line 88, yt_assist.py line 123). -/
inductive JsonVal where
  | null : JsonVal
  | bool : Bool → JsonVal
  | num : Int → JsonVal
  | str : Str → JsonVal
  | arr : List JsonVal → JsonVal
  | obj : List (Str × JsonVal) → JsonVal

/-- Looking a key up in a JSON value: a dictionary yields the value of
the first field with that key; any other value has no keys. -/
def jsonLookup (j : JsonVal) (k : Str) : Option JsonVal :=
  match j with
  | JsonVal.obj fields => (fields.find? (fun f => f.1 == k)).map Prod.snd
  | _ => none

/-- The five résumé categories requested by `parse_resume_to_json`. -/
def categoryNames : List Str :=
  ["skills".toList, "experience".toList, "achievements".toList,
   "education".toList, "projects".toList]

/-- The clean default structure of `parse_resume_to_json`
(cl_gen.py lines 90-96): all five categories mapped to empty lists. -/
def defaultResumeJson : JsonVal :=
  JsonVal.obj (categoryNames.map (fun c => (c, JsonVal.arr [])))

/-- `parse_resume_to_json` from cl_gen.py (lines 48-98), after the
external model call. The call and the `json.loads` of its output are
modelled by their outcome `parsed`: `none` when `json.loads` raised
(the `except` branch substitutes the default structure), `some v` when
it parsed the value `v`, which is returned unchanged. -/
def parseResumeToJson (parsed : Option JsonVal) : JsonVal :=
  parsed.getD defaultResumeJson

/-- The category `cat` is present in `j` as a sequence (an array). -/
def categoryPresent (j : JsonVal) (cat : Str) : Bool :=
  match jsonLookup j cat with
  | some (JsonVal.arr _) => true
  | _ => false

/-- All five résumé categories are present as sequences. -/
def allCategoriesPresent (j : JsonVal) : Bool :=
  categoryNames.all (fun c => categoryPresent j c)

/-- `generate_quiz_from_chunks` from yt_assist.py (lines 82-125), after
the external model call. The call and the `json.loads` of its output
are modelled by their outcome `parsed`: `none` when `json.loads` raised
(the `except` branch substitutes a dictionary with an empty question
list), `some v` when it parsed the value `v`, which is returned
unchanged. -/
def generateQuizFromChunks (parsed : Option JsonVal) : JsonVal :=
  parsed.getD (JsonVal.obj [("questions".toList, JsonVal.arr [])])

/-- A UTF-8 continuation byte: 0x80 to 0xBF. -/
def isContByte (b : Nat) : Bool := 0x80 ≤ b && b ≤ 0xBF

/-- The allowed range of the first continuation byte after the lead
byte `b` of a three-byte UTF-8 sequence (0xE0 restricts to 0xA0-0xBF;
0xED restricts to 0x80-0x9F, excluding surrogates). -/
def firstCont3 (b c : Nat) : Bool :=
  if b == 0xE0 then 0xA0 ≤ c && c ≤ 0xBF
  else if b == 0xED then 0x80 ≤ c && c ≤ 0x9F
  else isContByte c

/-- The allowed range of the first continuation byte after the lead
byte `b` of a four-byte UTF-8 sequence (0xF0 restricts to 0x90-0xBF;
0xF4 restricts to 0x80-0x8F, capping code points at 0x10FFFF). -/
def firstCont4 (b c : Nat) : Bool :=
  if b == 0xF0 then 0x90 ≤ c && c ≤ 0xBF
  else if b == 0xF4 then 0x80 ≤ c && c ≤ 0x8F
  else isContByte c

/-- The error policy of Python `bytes.decode("utf-8", errors=...)`. -/
inductive Utf8Errors where
  | ignore : Utf8Errors
  | replace : Utf8Errors

/-- What the decoder emits for one undecodable maximal subpart:
nothing under `ignore`, U+FFFD under `replace`. -/
def errOut : Utf8Errors → List Nat
  | Utf8Errors.ignore => []
  | Utf8Errors.replace => [0xFFFD]

/-- Python `bytes.decode("utf-8", errors=p)`, producing the decoded
text as a list of code points. Follows the strict UTF-8 ranges CPython
enforces (no overlong forms, no surrogates, nothing above U+10FFFF);
each undecodable maximal subpart is skipped or replaced according to
the policy, and decoding resumes at the next byte. -/
def pyDecodeUtf8 (p : Utf8Errors) : List Nat → List Nat
  | [] => []
  | b :: rest =>
    if b < 0x80 then b :: pyDecodeUtf8 p rest
    else if 0xC2 ≤ b && b ≤ 0xDF then
      match rest with
      | [] => errOut p
      | c1 :: rest2 =>
        if isContByte c1 then
          ((b - 0xC0) * 64 + (c1 - 0x80)) :: pyDecodeUtf8 p rest2
        else errOut p ++ pyDecodeUtf8 p (c1 :: rest2)
    else if 0xE0 ≤ b && b ≤ 0xEF then
      match rest with
      | [] => errOut p
      | c1 :: rest2 =>
        if firstCont3 b c1 then
          match rest2 with
          | [] => errOut p
          | c2 :: rest3 =>
            if isContByte c2 then
              ((b - 0xE0) * 4096 + (c1 - 0x80) * 64 + (c2 - 0x80)) ::
                pyDecodeUtf8 p rest3
            else errOut p ++ pyDecodeUtf8 p (c2 :: rest3)
        else errOut p ++ pyDecodeUtf8 p (c1 :: rest2)
    else if 0xF0 ≤ b && b ≤ 0xF4 then
      match rest with
      | [] => errOut p
      | c1 :: rest2 =>
        if firstCont4 b c1 then
          match rest2 with
          | [] => errOut p
          | c2 :: rest3 =>
            if isContByte c2 then
              match rest3 with
              | [] => errOut p
              | c3 :: rest4 =>
                if isContByte c3 then
                  ((b - 0xF0) * 262144 + (c1 - 0x80) * 4096 +
                    (c2 - 0x80) * 64 + (c3 - 0x80)) :: pyDecodeUtf8 p rest4
                else errOut p ++ pyDecodeUtf8 p (c3 :: rest4)
            else errOut p ++ pyDecodeUtf8 p (c2 :: rest3)
        else errOut p ++ pyDecodeUtf8 p (c1 :: rest2)
    else errOut p ++ pyDecodeUtf8 p rest
  termination_by bs => bs.length
  decreasing_by all_goals (simp_wf; try omega)

/-- A file handed to `extract_resume_text`: absent, a PDF whose pages
each yield extracted text or `None`, or a plain-text file holding raw
bytes. Extracted text is represented as a list of code points. -/
inductive UploadedFile where
  | nofile : UploadedFile
  | pdf : List (Option (List Nat)) → UploadedFile
  | txt : List Nat → UploadedFile

/-- `extract_resume_text` from cl_gen.py (lines 18-45): `None` gives
the empty string; a PDF concatenates each page text, substituting the
empty string for pages whose extraction returns `None`; a plain-text
file is decoded as UTF-8 with `errors="ignore"` (line 43). -/
def extractResumeText : UploadedFile → List Nat
  | UploadedFile.nofile => []
  | UploadedFile.pdf pages => pages.foldl (fun acc pg => acc ++ pg.getD []) []
  | UploadedFile.txt bytes => pyDecodeUtf8 Utf8Errors.ignore bytes

/-- A valid Unicode scalar value: below 0x110000 and not a surrogate. -/
def isValidScalar (n : Nat) : Bool :=
  n < 0x110000 && !(0xD800 ≤ n && n ≤ 0xDFFF)

/-- Modelled from the spec: `score = round(100 * |matched| / |keywords|)`,
defined as 0 when `keywords` is empty. Rounding half away from zero;
on the inputs considered the quotient is never an exact half, so any
standard rounding convention agrees. -/
def specRoundScore (m k : Nat) : Nat :=
  if k = 0 then 0 else (200 * m + k) / (2 * k)

/-- Modelled from the spec: the extraction output parses as a list of
strings — `eval` produced a value and that value is a list whose
elements are all strings. -/
def parsesAsListOfStrings : Option PyVal → Bool
  | some (PyVal.list xs) =>
      xs.all (fun x =>
        match x with
        | PyVal.str _ => true
        | _ => false)
  | _ => false

/-- The keyword list of the end-to-end example in the spec:
`["Python", "SQL", "Leadership"]` as the value `eval` produces. -/
def exKeywords : PyVal :=
  PyVal.list [PyVal.str "Python".toList, PyVal.str "SQL".toList,
    PyVal.str "Leadership".toList]

/-- A résumé whose combined candidate text is the end-to-end example
text `"5 years of python and sql experience"` (held in the experience
category; the other categories are empty). -/
def exResume : ResumeData :=
  ⟨[], ["5 years of python and sql experience".toList], [], [], []⟩

/-- The same résumé as `exResume` on skills, experience and projects,
with different achievements and education entries. -/
def exResumeB : ResumeData :=
  ⟨[], ["5 years of python and sql experience".toList],
    ["Led a team of four".toList], ["BS in Computing".toList], []⟩

section Theorems

/-- Round-half-even never goes below the floor. -/
theorem floor_le_rhe (q : ℚ) : ⌊q⌋ ≤ rhe q := by
  unfold rhe; split_ifs <;> omega

/-- Round-half-even never exceeds the floor plus one. -/
theorem rhe_le_floor_add_one (q : ℚ) : rhe q ≤ ⌊q⌋ + 1 := by
  unfold rhe; split_ifs <;> omega

/-- Round-half-even fixes integers. -/
theorem rhe_intCast (n : ℤ) : rhe (n : ℚ) = n := by
  unfold rhe
  rw [Int.floor_intCast]
  norm_num

/-- Round-half-even of a nonnegative rational is nonnegative. -/
theorem rhe_nonneg {q : ℚ} (hq : 0 ≤ q) : 0 ≤ rhe q :=
  le_trans (Int.floor_nonneg.mpr hq) (floor_le_rhe q)

/-- Round-half-even is monotone. -/
theorem rhe_mono {x y : ℚ} (h : x ≤ y) : rhe x ≤ rhe y := by
  rcases lt_or_le ⌊x⌋ ⌊y⌋ with hf | hf
  · have h1 := rhe_le_floor_add_one x
    have h2 := floor_le_rhe y
    omega
  · have hxy : ⌊x⌋ = ⌊y⌋ := le_antisymm (Int.floor_le_floor h) hf
    have hs : x - (⌊y⌋ : ℚ) ≤ y - ⌊y⌋ := by linarith
    unfold rhe
    rw [hxy]
    split_ifs <;> first | omega | linarith

/-- Evaluation rule: a fractional part below one half rounds down. -/
theorem rhe_eval_lt {q : ℚ} {n : ℤ} (h1 : ⌊q⌋ = n) (h2 : q - n < 1/2) :
    rhe q = n := by
  unfold rhe
  rw [h1, if_pos h2]

/-- Evaluation rule: a fractional part above one half rounds up. -/
theorem rhe_eval_gt {q : ℚ} {n : ℤ} (h1 : ⌊q⌋ = n) (h2 : 1/2 < q - n) :
    rhe q = n + 1 := by
  unfold rhe
  rw [h1, if_neg (by linarith), if_pos h2]

/-- The computed binary exponent is a lower bound: 2^(ilog2 q) ≤ q. -/
theorem zpow_ilog2_le {q : ℚ} (hq : 0 < q) : (2:ℚ) ^ ilog2 q ≤ q := by
  unfold ilog2
  split_ifs with h
  · exact h
  · have hnum : 0 < q.num := Rat.num_pos.mpr hq
    have hnum0 : q.num.toNat ≠ 0 := by omega
    have hden0 : q.den ≠ 0 := q.den_nz
    set a := q.num.toNat with hadef
    set b := q.den with hbdef
    set la := Nat.log2 a with hladef
    set lb := Nat.log2 b with hlbdef
    have h1 : 2 ^ la ≤ a := (Nat.le_log2 hnum0).mp le_rfl
    have h2 : b < 2 ^ (lb + 1) := (Nat.log2_lt hden0).mp (Nat.lt_succ_self _)
    have hqnd : ((a : ℚ)) / (b : ℚ) = q := by
      have hh : ((a : ℤ) : ℚ) = (q.num : ℚ) := by
        rw [hadef, Int.toNat_of_nonneg hnum.le]
      push_cast at hh ⊢
      rw [hh, hbdef, Rat.num_div_den]
    have hrw : ((la : ℤ) - (lb : ℤ) - 1) = (la : ℤ) - ((lb : ℤ) + 1) := by ring
    rw [hrw, zpow_sub₀ (two_ne_zero), ← hqnd]
    rw [div_le_div_iff (by positivity) (by exact_mod_cast Nat.pos_of_ne_zero hden0)]
    have e1 : (2:ℚ) ^ ((la : ℤ)) = ((2 ^ la : ℕ) : ℚ) := by
      push_cast
      rw [zpow_natCast]
    have e2 : (2:ℚ) ^ ((lb : ℤ) + 1) = ((2 ^ (lb + 1) : ℕ) : ℚ) := by
      push_cast
      rw [← zpow_natCast ((2:ℚ))]
      push_cast
      ring_nf
    rw [e1, e2]
    have c1 : ((2 ^ la : ℕ) : ℚ) ≤ (a : ℚ) := by exact_mod_cast h1
    have c2 : ((b : ℕ) : ℚ) ≤ ((2 ^ (lb + 1) : ℕ) : ℚ) := by
      exact_mod_cast h2.le
    have := mul_le_mul c1 c2 (by positivity) (by positivity)
    linarith

/-- The computed binary exponent is tight: q < 2^(ilog2 q + 1). -/
theorem lt_zpow_ilog2_succ {q : ℚ} (hq : 0 < q) : q < (2:ℚ) ^ (ilog2 q + 1) := by
  unfold ilog2
  split_ifs with h
  · have hnum : 0 < q.num := Rat.num_pos.mpr hq
    have hnum0 : q.num.toNat ≠ 0 := by omega
    have hden0 : q.den ≠ 0 := q.den_nz
    set a := q.num.toNat with hadef
    set b := q.den with hbdef
    set la := Nat.log2 a with hladef
    set lb := Nat.log2 b with hlbdef
    have h1 : a < 2 ^ (la + 1) := (Nat.log2_lt hnum0).mp (Nat.lt_succ_self _)
    have h2 : 2 ^ lb ≤ b := (Nat.le_log2 hden0).mp le_rfl
    have hqnd : ((a : ℚ)) / (b : ℚ) = q := by
      have hh : ((a : ℤ) : ℚ) = (q.num : ℚ) := by
        rw [hadef, Int.toNat_of_nonneg hnum.le]
      push_cast at hh ⊢
      rw [hh, hbdef, Rat.num_div_den]
    have hrw : ((la : ℤ) - (lb : ℤ) + 1) = ((la : ℤ) + 1) - (lb : ℤ) := by ring
    rw [hrw, zpow_sub₀ (two_ne_zero), ← hqnd]
    rw [div_lt_div_iff (by exact_mod_cast Nat.pos_of_ne_zero hden0) (by positivity)]
    have e1 : (2:ℚ) ^ ((la : ℤ) + 1) = ((2 ^ (la + 1) : ℕ) : ℚ) := by
      push_cast
      rw [← zpow_natCast ((2:ℚ))]
      push_cast
      ring_nf
    have e2 : (2:ℚ) ^ ((lb : ℤ)) = ((2 ^ lb : ℕ) : ℚ) := by
      push_cast
      rw [zpow_natCast]
    rw [e1, e2]
    have c1 : (a : ℚ) < ((2 ^ (la + 1) : ℕ) : ℚ) := by exact_mod_cast h1
    have c2 : ((2 ^ lb : ℕ) : ℚ) ≤ (b : ℚ) := by exact_mod_cast h2
    have hd : (0:ℚ) < (b : ℚ) := by exact_mod_cast Nat.pos_of_ne_zero hden0
    calc (a : ℚ) * (2 ^ lb : ℕ)
        ≤ (a : ℚ) * (b : ℚ) := by
          exact mul_le_mul_of_nonneg_left c2 (by positivity)
      _ < ((2 ^ (la + 1) : ℕ) : ℚ) * (b : ℚ) := by
          exact mul_lt_mul_of_pos_right c1 hd
  · push_neg at h
    have : ((Nat.log2 q.num.toNat : ℤ) - (Nat.log2 q.den : ℤ) - 1 + 1)
        = (Nat.log2 q.num.toNat : ℤ) - (Nat.log2 q.den : ℤ) := by ring
    rw [this]
    exact h

/-- The binary exponent is determined by its two bounds. -/
theorem ilog2_eq_of {q : ℚ} {e : ℤ} (hq : 0 < q)
    (h1 : (2:ℚ) ^ e ≤ q) (h2 : q < 2 ^ (e + 1)) : ilog2 q = e := by
  have ha := zpow_ilog2_le hq
  have hb := lt_zpow_ilog2_succ hq
  have c1 : (2:ℚ) ^ ilog2 q < 2 ^ (e + 1) := lt_of_le_of_lt ha h2
  have c2 : (2:ℚ) ^ e < 2 ^ (ilog2 q + 1) := lt_of_le_of_lt h1 hb
  rw [zpow_lt_zpow_iff_right₀ one_lt_two] at c1 c2
  omega

/-- Rounding a nonnegative rational to binary64 stays nonnegative. -/
theorem roundB64Pos_nonneg {q : ℚ} (hq : 0 ≤ q) : 0 ≤ roundB64Pos q := by
  unfold roundB64Pos
  apply div_nonneg
  · exact_mod_cast rhe_nonneg (mul_nonneg hq (by positivity))
  · positivity

/-- Rounding a nonnegative rational to binary64 stays nonnegative. -/
theorem roundB64_nonneg {q : ℚ} (hq : 0 ≤ q) : 0 ≤ roundB64 q := by
  unfold roundB64
  split_ifs with h1 h2
  · exact roundB64Pos_nonneg h1.le
  · linarith
  · exact le_refl 0

/-- Rounding to binary64 never crosses an integer bound that is itself
exactly representable (any natural number up to 2^52): round to
nearest of a value at most n stays at most n. -/
theorem roundB64_le_nat (q : ℚ) (n : ℕ) (hq : q ≤ (n:ℚ))
    (hn : (n:ℚ) ≤ 2 ^ (52:ℤ)) : roundB64 q ≤ (n:ℚ) := by
  unfold roundB64
  split_ifs with h1 h2
  · unfold roundB64Pos
    set e := max (ilog2 q) (-1022) with he
    have hil52 : ilog2 q ≤ 52 := by
      have hl : (2:ℚ) ^ ilog2 q ≤ q := zpow_ilog2_le h1
      have : (2:ℚ) ^ ilog2 q ≤ (2:ℚ) ^ (52:ℤ) := le_trans hl (le_trans hq hn)
      exact (zpow_le_zpow_iff_right₀ one_lt_two).mp this
    have he52 : e ≤ 52 := max_le hil52 (by norm_num)
    obtain ⟨t, htt⟩ : ∃ t : ℕ, (52:ℤ) - e = (t:ℤ) :=
      ⟨((52:ℤ) - e).toNat, (Int.toNat_of_nonneg (by omega)).symm⟩
    rw [htt, zpow_natCast]
    have hsc : (0:ℚ) < 2 ^ t := by positivity
    rw [div_le_iff hsc]
    have key : rhe (q * 2 ^ t) ≤ (n : ℤ) * 2 ^ t := by
      have hc : q * 2 ^ t ≤ (((n : ℤ) * 2 ^ t : ℤ) : ℚ) := by
        push_cast
        exact mul_le_mul_of_nonneg_right hq (by positivity)
      calc rhe (q * 2 ^ t) ≤ rhe (((n : ℤ) * 2 ^ t : ℤ) : ℚ) := rhe_mono hc
        _ = (n : ℤ) * 2 ^ t := rhe_intCast _
    calc ((rhe (q * 2 ^ t) : ℤ) : ℚ) ≤ (((n : ℤ) * 2 ^ t : ℤ) : ℚ) := by exact_mod_cast key
      _ = (n : ℚ) * 2 ^ t := by push_cast; ring
  · have hr := roundB64Pos_nonneg (neg_nonneg.mpr h2.le)
    have hn0 : (0:ℚ) ≤ (n:ℚ) := by positivity
    linarith
  · positivity

/-- The float score of line 207 never exceeds 100 when no more
keywords match than exist. -/
theorem pyFloatScorePct_le_100 (m k : ℕ) (hmk : m ≤ k) :
    pyFloatScorePct m k ≤ 100 := by
  unfold pyFloatScorePct
  have hd0 : (0:ℚ) ≤ (m:ℚ) / (k:ℚ) := by positivity
  have hd1 : (m:ℚ) / (k:ℚ) ≤ 1 := by
    rcases Nat.eq_zero_or_pos k with hk | hk
    · have hm0 : m = 0 := by omega
      simp [hm0, hk]
    · rw [div_le_one (by exact_mod_cast hk)]
      exact_mod_cast hmk
  have h1 : roundB64 ((m:ℚ)/(k:ℚ)) ≤ 1 := by
    have := roundB64_le_nat ((m:ℚ)/(k:ℚ)) 1 (by exact_mod_cast hd1) (by norm_num)
    simpa using this
  have h0 : 0 ≤ roundB64 ((m:ℚ)/(k:ℚ)) := roundB64_nonneg hd0
  have h2 : roundB64 ((m:ℚ)/(k:ℚ)) * 100 ≤ ((100:ℕ):ℚ) := by push_cast; nlinarith
  have h2' : roundB64 (roundB64 ((m:ℚ)/(k:ℚ)) * 100) ≤ 100 := by
    have := roundB64_le_nat _ 100 h2 (by norm_num)
    simpa using this
  unfold pyIntTrunc
  split_ifs with hneg
  · have : (-⌊-(roundB64 (roundB64 ((m:ℚ)/(k:ℚ)) * 100))⌋) ≤ 0 := by
      have := Int.floor_nonneg.mpr (neg_nonneg.mpr hneg.le)
      omega
    omega
  · have hf : ⌊roundB64 (roundB64 ((m:ℚ)/(k:ℚ)) * 100)⌋ ≤ ⌊(100:ℚ)⌋ :=
      Int.floor_le_floor h2'
    have h100 : ⌊(100:ℚ)⌋ = 100 := by norm_num
    omega



/-- Evaluation rule for the binary64 rounding of a positive rational
whose exponent and rounded significand are known. -/
theorem roundB64_eval_pos {q : ℚ} {il n : ℤ}
    (hq : 0 < q) (hil : ilog2 q = il) (hge : (-1022:ℤ) ≤ il)
    (hn : rhe (q * 2 ^ ((52:ℤ) - il)) = n) :
    roundB64 q = (n : ℚ) / 2 ^ ((52:ℤ) - il) := by
  unfold roundB64 roundB64Pos
  rw [if_pos hq, hil, max_eq_left hge, hn]

/-- The float score of 2 matched keywords out of 3: CPython computes
int((2/3)*100) = 66. -/
theorem pyFloatScorePct_two_three : pyFloatScorePct 2 3 = 66 := by
  unfold pyFloatScorePct
  have hc : ((2:ℕ):ℚ) / ((3:ℕ):ℚ) = 2/3 := by norm_num
  rw [hc]
  have hil1 : ilog2 (2/3 : ℚ) = -1 :=
    ilog2_eq_of (by norm_num) (by norm_num) (by norm_num)
  have hrhe1 : rhe ((2/3 : ℚ) * 2 ^ ((52:ℤ) - (-1 : ℤ))) = 6004799503160661 := by
    rw [show (2/3 : ℚ) * 2 ^ ((52:ℤ) - (-1 : ℤ)) = 18014398509481984/3 by norm_num]
    exact rhe_eval_lt (by rw [Int.floor_eq_iff]; norm_num) (by norm_num)
  rw [roundB64_eval_pos (by norm_num) hil1 (by norm_num) hrhe1]
  rw [show (((6004799503160661 : ℤ) : ℚ) / 2 ^ ((52:ℤ) - (-1 : ℤ))) * 100
      = 150119987579016525/2251799813685248 by norm_num]
  have hil2 : ilog2 (150119987579016525/2251799813685248 : ℚ) = 6 :=
    ilog2_eq_of (by norm_num) (by norm_num) (by norm_num)
  have hrhe2 : rhe ((150119987579016525/2251799813685248 : ℚ) * 2 ^ ((52:ℤ) - (6:ℤ)))
      = 4691249611844266 := by
    rw [show (150119987579016525/2251799813685248 : ℚ) * 2 ^ ((52:ℤ) - (6:ℤ))
        = 150119987579016525/32 by norm_num]
    exact rhe_eval_lt (by rw [Int.floor_eq_iff]; norm_num) (by norm_num)
  rw [roundB64_eval_pos (by norm_num) hil2 (by norm_num) hrhe2]
  unfold pyIntTrunc
  rw [if_neg (by norm_num)]
  rw [show ⌊((4691249611844266 : ℤ) : ℚ) / 2 ^ ((52:ℤ) - (6:ℤ))⌋ = 66 by
    rw [Int.floor_eq_iff]; norm_num]
  rfl

/-- The float score of 29 matched keywords out of 50: CPython computes
int((29/50)*100) = int(57.99999999999999) = 57, one below the exact
integer ⌊100*29/50⌋ = 58. -/
theorem pyFloatScorePct_twentynine_fifty : pyFloatScorePct 29 50 = 57 := by
  unfold pyFloatScorePct
  have hc : ((29:ℕ):ℚ) / ((50:ℕ):ℚ) = 29/50 := by norm_num
  rw [hc]
  have hil1 : ilog2 (29/50 : ℚ) = -1 :=
    ilog2_eq_of (by norm_num) (by norm_num) (by norm_num)
  have hrhe1 : rhe ((29/50 : ℚ) * 2 ^ ((52:ℤ) - (-1 : ℤ))) = 5224175567749775 := by
    rw [show (29/50 : ℚ) * 2 ^ ((52:ℤ) - (-1 : ℤ)) = 130604389193744384/25 by norm_num]
    exact rhe_eval_lt (by rw [Int.floor_eq_iff]; norm_num) (by norm_num)
  rw [roundB64_eval_pos (by norm_num) hil1 (by norm_num) hrhe1]
  rw [show (((5224175567749775 : ℤ) : ℚ) / 2 ^ ((52:ℤ) - (-1 : ℤ))) * 100
      = 130604389193744375/2251799813685248 by norm_num]
  have hil2 : ilog2 (130604389193744375/2251799813685248 : ℚ) = 5 :=
    ilog2_eq_of (by norm_num) (by norm_num) (by norm_num)
  have hrhe2 : rhe ((130604389193744375/2251799813685248 : ℚ) * 2 ^ ((52:ℤ) - (5:ℤ)))
      = 8162774324609023 := by
    rw [show (130604389193744375/2251799813685248 : ℚ) * 2 ^ ((52:ℤ) - (5:ℤ))
        = 130604389193744375/16 by norm_num]
    exact rhe_eval_lt (by rw [Int.floor_eq_iff]; norm_num) (by norm_num)
  rw [roundB64_eval_pos (by norm_num) hil2 (by norm_num) hrhe2]
  unfold pyIntTrunc
  rw [if_neg (by norm_num)]
  rw [show ⌊((8162774324609023 : ℤ) : ℚ) / 2 ^ ((52:ℤ) - (5:ℤ))⌋ = 57 by
    rw [Int.floor_eq_iff]; norm_num]
  rfl


/-- On 29 matched of 50 keywords the program float arithmetic
(modelled by `pyFloatScorePct`) yields 57 while the exact rational
truncation yields 58: line 207 is not exact integer floor division. -/
theorem pyFloatScorePct_diverges_from_floor :
    pyFloatScorePct 29 50 = 57 ∧ (100 * 29) / 50 = 58 := by
  exact ⟨pyFloatScorePct_twentynine_fifty, by norm_num⟩

/-- The end-to-end example evaluated against the embedding: matched
`["Python","SQL"]`, missing `["Leadership"]`, score 66. -/
theorem getAtsScore_example_eval :
    getAtsScore (some exKeywords) exResume =
      Except.ok (66, ["Python".toList, "SQL".toList], ["Leadership".toList]) := by
  unfold getAtsScore
  dsimp only
  rw [show kwAsStrList ((some exKeywords).getD (PyVal.list []))
      = Except.ok (["Python".toList, "SQL".toList, "Leadership".toList] : List Str)
      from rfl]
  dsimp only
  rw [show List.filter (fun kw => kwMatches exResume kw)
        (["Python".toList, "SQL".toList, "Leadership".toList] : List Str)
      = (["Python".toList, "SQL".toList] : List Str) from rfl]
  rw [show List.filter (fun kw => ! kwMatches exResume kw)
        (["Python".toList, "SQL".toList, "Leadership".toList] : List Str)
      = (["Leadership".toList] : List Str) from rfl]
  simp [pyFloatScorePct_two_three]

/-- C2 counterexample: on the keyword list `["Python","SQL","Leadership"]`
and candidate text `"5 years of python and sql experience"`,
`get_ats_score` returns matched `["Python","SQL"]` and missing
`["Leadership"]` as claimed, but the score is 66, not the claimed 67:
`int((2/3)*100)` truncates 66.666... to 66. -/
theorem c2_end_to_end_counterexample :
    getAtsScore (some exKeywords) exResume =
      Except.ok (66, ["Python".toList, "SQL".toList], ["Leadership".toList]) ∧
    (66 : Nat) ≠ 67 := by
  exact ⟨getAtsScore_example_eval, by decide⟩

/-- C2 amended: on the keyword list `["Python","SQL","Leadership"]` and
candidate text `"5 years of python and sql experience"`, `get_ats_score`
returns matched `["Python","SQL"]`, missing `["Leadership"]`, and
score 66. -/
theorem c2_end_to_end_example :
    getAtsScore (some exKeywords) exResume =
      Except.ok (66, ["Python".toList, "SQL".toList], ["Leadership".toList]) := by
  exact getAtsScore_example_eval

/-- C1 counterexample: with 2 of 3 keywords matched, the code returns
score 66 while the claimed formula `round(100 * |matched| / |keywords|)`
gives `round(200/3) = 67`. -/
theorem c1_round_counterexample :
    getAtsScore (some exKeywords) exResume =
      Except.ok (66, ["Python".toList, "SQL".toList], ["Leadership".toList]) ∧
    specRoundScore 2 3 = 67 ∧ (66 : Nat) ≠ 67 := by
  exact ⟨getAtsScore_example_eval, rfl, by decide⟩

/-- C1 amended: for every keyword list and candidate text on which
`get_ats_score` returns, the score equals
`int((|matched| / |keywords|) * 100)` evaluated in IEEE-754 binary64
arithmetic — the correctly rounded quotient of the two lengths, the
correctly rounded product with 100, truncated toward zero — and is 0
when the keyword list is empty. -/
theorem c1_score_float_semantics (e : Option PyVal) (d : ResumeData)
    (s : Nat) (m ms : List Str) (kws : List Str)
    (hok : getAtsScore e d = Except.ok (s, m, ms))
    (hkw : kwAsStrList (e.getD (PyVal.list [])) = Except.ok kws) :
    s = if kws = [] then 0 else pyFloatScorePct m.length kws.length := by
  unfold getAtsScore at hok
  dsimp only at hok
  rw [hkw] at hok
  simp only [Except.ok.injEq, Prod.mk.injEq] at hok
  obtain ⟨hs, hm, hms⟩ := hok
  subst hm
  rw [← hs]
  simp [List.isEmpty_iff]

/-- C1 witness: the float score formula instantiated on the end-to-end
example: 2 of 3 keywords matched gives `int((2/3)*100) = 66`. -/
theorem c1_score_float_semantics_witness :
    (66 : Nat) =
      if (["Python".toList, "SQL".toList, "Leadership".toList] : List Str) = []
      then 0
      else pyFloatScorePct (["Python".toList, "SQL".toList] : List Str).length
        (["Python".toList, "SQL".toList, "Leadership".toList] : List Str).length := by
  exact c1_score_float_semantics (some exKeywords) exResume 66
    ["Python".toList, "SQL".toList] ["Leadership".toList]
    ["Python".toList, "SQL".toList, "Leadership".toList]
    getAtsScore_example_eval rfl

/-- C4: every score `get_ats_score` returns is an integer in [0, 100]
(it is a natural number, so 0 ≤ score holds by type), and on the empty
keyword list the result is score 0 with empty matched and missing lists,
for every résumé. -/
theorem c4_score_bounds :
    (∀ (e : Option PyVal) (d : ResumeData) (s : Nat) (m ms : List Str),
      getAtsScore e d = Except.ok (s, m, ms) → s ≤ 100) ∧
    (∀ d : ResumeData,
      getAtsScore (some (PyVal.list [])) d = Except.ok (0, [], [])) := by
  constructor
  · intro e d s m ms hok
    unfold getAtsScore at hok
    dsimp only at hok
    cases hkw : kwAsStrList (e.getD (PyVal.list [])) with
    | error msg => rw [hkw] at hok; exact Except.noConfusion hok
    | ok kws =>
        rw [hkw] at hok
        simp only [Except.ok.injEq, Prod.mk.injEq] at hok
        obtain ⟨hs, _, _⟩ := hok
        rw [← hs]
        by_cases hemp : kws.isEmpty
        · simp [hemp]
        · simp only [hemp, if_false]
          exact pyFloatScorePct_le_100 _ _ (List.length_filter_le _ _)
  · intro d
    exact rfl

/-- C4 witness: the bound instantiated on the end-to-end example
(score 66 ≤ 100), together with the empty-keyword-list case on a
concrete résumé. -/
theorem c4_score_bounds_witness :
    (66 : Nat) ≤ 100 ∧
    getAtsScore (some (PyVal.list [])) exResume = Except.ok (0, [], []) := by
  exact ⟨c4_score_bounds.1 (some exKeywords) exResume 66
    ["Python".toList, "SQL".toList] ["Leadership".toList] getAtsScore_example_eval,
    c4_score_bounds.2 exResume⟩

/-- C5 counterexample: the extraction output `2` evaluates successfully
to an integer, hence cannot be parsed as a list of strings, yet
`get_ats_score` does NOT fall back to score 0 with empty lists: the
list comprehension raises an uncaught TypeError. -/
theorem c5_nonlist_counterexample :
    parsesAsListOfStrings (some (PyVal.int 2)) = false ∧
    getAtsScore (some (PyVal.int 2)) exResume ≠ Except.ok (0, [], []) := by
  refine ⟨rfl, ?_⟩
  intro h
  have herr : getAtsScore (some (PyVal.int 2)) exResume =
      Except.error "TypeError: int object is not iterable" := rfl
  rw [herr] at h
  exact Except.noConfusion h

/-- C5 amended: the fallback to an empty keyword list happens exactly
when the `eval` of the extraction output raises (modelled as `none`);
then `get_ats_score` returns score 0 with empty matched and missing
lists, without raising, for every résumé. An output that evaluates to
a value other than a list of strings is not treated as empty. -/
theorem c5_eval_raise_fallback (d : ResumeData) :
    getAtsScore none d = Except.ok (0, [], []) := by
  exact rfl

/-- C3: for every keyword value and résumé on which `get_ats_score`
returns, a keyword is in the matched list exactly when it is one of the
keywords and its lowercased form is a substring of the lowercased
candidate text, in the missing list exactly when it is one of the
keywords and that test fails; hence matched and missing partition the
keyword list (every keyword is in one of the two, none in both). -/
theorem c3_match_partition (e : Option PyVal) (d : ResumeData)
    (s : Nat) (m ms : List Str)
    (hok : getAtsScore e d = Except.ok (s, m, ms)) :
    ∃ kws, kwAsStrList (e.getD (PyVal.list [])) = Except.ok kws ∧
      (∀ kw, kw ∈ m ↔
        kw ∈ kws ∧ pyIn (lowerStr kw) (lowerStr (rawResumeText d)) = true) ∧
      (∀ kw, kw ∈ ms ↔
        kw ∈ kws ∧ ¬ pyIn (lowerStr kw) (lowerStr (rawResumeText d)) = true) ∧
      (∀ kw, kw ∈ kws ↔ kw ∈ m ∨ kw ∈ ms) ∧
      (∀ kw, ¬ (kw ∈ m ∧ kw ∈ ms)) := by
  unfold getAtsScore at hok
  dsimp only at hok
  cases hkw : kwAsStrList (e.getD (PyVal.list [])) with
  | error msg => rw [hkw] at hok; exact Except.noConfusion hok
  | ok kws =>
      rw [hkw] at hok
      simp only [Except.ok.injEq, Prod.mk.injEq] at hok
      obtain ⟨_, hm, hms⟩ := hok
      subst hm
      subst hms
      refine ⟨kws, rfl, ?_, ?_, ?_, ?_⟩
      · intro kw
        simp [List.mem_filter, kwMatches, resumeSearchText]
      · intro kw
        simp [List.mem_filter, kwMatches, resumeSearchText]
      · intro kw
        simp only [List.mem_filter, Bool.not_eq_true']
        by_cases hkwm : kwMatches d kw = true
        · simp [hkwm]
        · simp only [Bool.not_eq_true] at hkwm
          simp [hkwm]
      · intro kw
        simp only [List.mem_filter, Bool.not_eq_true']
        intro hboth
        obtain ⟨⟨_, h1⟩, ⟨_, h2⟩⟩ := hboth
        rw [h1] at h2
        exact Bool.noConfusion h2

/-- C3 witness: the partition instantiated on the end-to-end example
keyword list `["Python","SQL","Leadership"]` and candidate text
`"5 years of python and sql experience"`. -/
theorem c3_match_partition_witness :
    ∃ kws, kwAsStrList ((some exKeywords).getD (PyVal.list [])) = Except.ok kws ∧
      (∀ kw, kw ∈ (["Python".toList, "SQL".toList] : List Str) ↔
        kw ∈ kws ∧
          pyIn (lowerStr kw) (lowerStr (rawResumeText exResume)) = true) ∧
      (∀ kw, kw ∈ (["Leadership".toList] : List Str) ↔
        kw ∈ kws ∧
          ¬ pyIn (lowerStr kw) (lowerStr (rawResumeText exResume)) = true) ∧
      (∀ kw, kw ∈ kws ↔
        kw ∈ (["Python".toList, "SQL".toList] : List Str) ∨
          kw ∈ (["Leadership".toList] : List Str)) ∧
      (∀ kw, ¬ (kw ∈ (["Python".toList, "SQL".toList] : List Str) ∧
        kw ∈ (["Leadership".toList] : List Str))) := by
  exact c3_match_partition (some exKeywords) exResume 66
    ["Python".toList, "SQL".toList] ["Leadership".toList] getAtsScore_example_eval

/-- C6 counterexample: the model response `{}` parses as JSON, so
`parse_resume_to_json` returns it unchanged, and the result has none of
the five categories: the claim that all five categories are always
present fails. -/
theorem c6_all_categories_counterexample :
    allCategoriesPresent (parseResumeToJson (some (JsonVal.obj []))) = false := by
  exact rfl

/-- C6 amended: `parse_resume_to_json` never raises (it is total); when
the model response is not parseable as JSON it returns the default
structure, in which every one of the five categories is present as an
empty sequence; a response that parses as JSON is returned unchanged
and may lack categories. -/
theorem c6_nonjson_fallback (parsed : Option JsonVal) (h : parsed = none) :
    parseResumeToJson parsed = defaultResumeJson ∧
    (∀ cat ∈ categoryNames,
      jsonLookup (parseResumeToJson parsed) cat = some (JsonVal.arr [])) ∧
    allCategoriesPresent (parseResumeToJson parsed) = true := by
  subst h
  refine ⟨rfl, ?_, rfl⟩
  intro cat hcat
  fin_cases hcat <;> rfl

/-- C6 witness: the fallback instantiated at a raised `json.loads`. -/
theorem c6_nonjson_fallback_witness :
    parseResumeToJson none = defaultResumeJson ∧
    (∀ cat ∈ categoryNames,
      jsonLookup (parseResumeToJson none) cat = some (JsonVal.arr [])) ∧
    allCategoriesPresent (parseResumeToJson none) = true := by
  exact c6_nonjson_fallback none rfl

/-- C7: whenever the quiz-generation model output is not parseable as
JSON, `generate_quiz_from_chunks` returns (rather than raising) a quiz
value whose question list is empty. -/
theorem c7_quiz_parse_fallback (parsed : Option JsonVal) (h : parsed = none) :
    jsonLookup (generateQuizFromChunks parsed) "questions".toList =
      some (JsonVal.arr []) := by
  subst h
  rfl

/-- C7 witness: the fallback instantiated at a raised `json.loads`. -/
theorem c7_quiz_parse_fallback_witness :
    jsonLookup (generateQuizFromChunks none) "questions".toList =
      some (JsonVal.arr []) := by
  exact c7_quiz_parse_fallback none rfl

/-- C10: the result of `get_ats_score` depends only on the skills,
experience and projects categories of the résumé: two résumés agreeing
on those three fields give identical score, matched list and missing
list for every keyword value, whatever their achievements and
education. -/
theorem c10_only_three_fields_matter (e : Option PyVal) (d1 d2 : ResumeData)
    (hs : d1.skills = d2.skills) (he : d1.experience = d2.experience)
    (hp : d1.projects = d2.projects) :
    getAtsScore e d1 = getAtsScore e d2 := by
  have htext : resumeSearchText d1 = resumeSearchText d2 := by
    unfold resumeSearchText rawResumeText
    rw [hs, he, hp]
  have hmatch : kwMatches d1 = kwMatches d2 := by
    funext kw
    unfold kwMatches
    rw [htext]
  unfold getAtsScore
  rw [hmatch]

/-- C10 witness: two résumés sharing skills, experience and projects
but with different achievements and education get the same result on
the end-to-end example keyword list. -/
theorem c10_only_three_fields_matter_witness :
    getAtsScore (some exKeywords) exResume =
      getAtsScore (some exKeywords) exResumeB := by
  exact c10_only_three_fields_matter (some exKeywords) exResume exResumeB
    rfl rfl rfl

/-- The decoder never produces more code points than input bytes:
each emitted code point or replacement consumes at least one byte. -/
theorem pyDecodeUtf8_length_le (p : Utf8Errors) (bs : List Nat) :
    (pyDecodeUtf8 p bs).length ≤ bs.length := by
  have herr : (errOut p).length ≤ 1 := by cases p <;> simp [errOut]
  induction bs using pyDecodeUtf8.induct with
  | p => exact p
  | case1 => rw [pyDecodeUtf8.eq_def]
  | case2 c1 rest2 h ih =>
      rw [pyDecodeUtf8.eq_def]; simp [h]; omega
  | case3 c1 h1 h2 =>
      rw [pyDecodeUtf8.eq_def]; simp [h1, h2]; omega
  | case4 c1 h1 h2 c2 rest2 h3 ih =>
      rw [pyDecodeUtf8.eq_def]; simp [h1, h2, h3]; omega
  | case5 c1 h1 h2 c2 rest2 h3 ih =>
      rw [pyDecodeUtf8.eq_def]; simp [h1, h2, h3]; simp only [List.length_cons] at ih; omega
  | case6 c1 h1 h2 h3 =>
      rw [pyDecodeUtf8.eq_def]; simp [h1, h2, h3]; omega
  | case7 c1 h1 h2 h3 c2 h4 =>
      rw [pyDecodeUtf8.eq_def]; simp [h1, h2, h3, h4]; omega
  | case8 c1 h1 h2 h3 c2 h4 c3 rest2 h5 ih =>
      rw [pyDecodeUtf8.eq_def]; simp [h1, h2, h3, h4, h5]; omega
  | case9 c1 h1 h2 h3 c2 h4 c3 rest2 h5 ih =>
      rw [pyDecodeUtf8.eq_def]; simp [h1, h2, h3, h4, h5]; simp only [List.length_cons] at ih; omega
  | case10 c1 h1 h2 h3 c2 rest2 h4 ih =>
      rw [pyDecodeUtf8.eq_def]; simp [h1, h2, h3, h4]; simp only [List.length_cons] at ih; omega
  | case11 c1 h1 h2 h3 h4 =>
      rw [pyDecodeUtf8.eq_def]; simp [h1, h2, h3, h4]; omega
  | case12 c1 h1 h2 h3 h4 c2 h5 =>
      rw [pyDecodeUtf8.eq_def]; simp [h1, h2, h3, h4, h5]; omega
  | case13 c1 h1 h2 h3 h4 c2 h5 c3 h6 =>
      rw [pyDecodeUtf8.eq_def]; simp [h1, h2, h3, h4, h5, h6]; omega
  | case14 c1 h1 h2 h3 h4 c2 h5 c3 h6 c4 rest2 h7 ih =>
      rw [pyDecodeUtf8.eq_def]; simp [h1, h2, h3, h4, h5, h6, h7]; omega
  | case15 c1 h1 h2 h3 h4 c2 h5 c3 h6 c4 rest2 h7 ih =>
      rw [pyDecodeUtf8.eq_def]; simp [h1, h2, h3, h4, h5, h6, h7]; simp only [List.length_cons] at ih; omega
  | case16 c1 h1 h2 h3 h4 c2 h5 c3 rest2 h6 ih =>
      rw [pyDecodeUtf8.eq_def]; simp [h1, h2, h3, h4, h5, h6]; simp only [List.length_cons] at ih; omega
  | case17 c1 h1 h2 h3 h4 c2 rest2 h5 ih =>
      rw [pyDecodeUtf8.eq_def]; simp [h1, h2, h3, h4, h5]; simp only [List.length_cons] at ih; omega
  | case18 c1 rest2 h1 h2 h3 h4 ih =>
      rw [pyDecodeUtf8.eq_def]; simp [h1, h2, h3, h4]; omega

/-- Every code point the decoder produces is a valid Unicode scalar
value: the strict range checks exclude overlong forms, surrogates and
values above U+10FFFF. -/
theorem pyDecodeUtf8_valid_scalar (p : Utf8Errors) (bs : List Nat) :
    ∀ n ∈ pyDecodeUtf8 p bs, isValidScalar n = true := by
  have herr : ∀ n ∈ errOut p, isValidScalar n = true := by
    cases p <;> simp [errOut, isValidScalar]
  induction bs using pyDecodeUtf8.induct with
  | p => exact p
  | case1 => rw [pyDecodeUtf8.eq_def]; simp
  | case2 c1 rest2 h ih =>
      rw [pyDecodeUtf8.eq_def]; simp only [h, if_pos]
      intro n hn
      rcases List.mem_cons.mp hn with rfl | hn
      · simp only [isValidScalar, Bool.and_eq_true, decide_eq_true_eq,
          Bool.not_eq_true', Bool.and_eq_false_iff, decide_eq_false_iff_not]
        omega
      · exact ih n hn
  | case3 c1 h1 h2 =>
      rw [pyDecodeUtf8.eq_def]; simp [h1, h2]
      intro n hn; exact herr n (by simpa using hn)
  | case4 c1 h1 h2 c2 rest2 h3 ih =>
      rw [pyDecodeUtf8.eq_def]; simp only [h1, h2, h3, if_neg, if_pos, ite_true, ite_false]
      simp [h1, h2, h3]
      constructor
      · simp only [Bool.and_eq_true, decide_eq_true_eq] at h2
        simp only [isContByte, Bool.and_eq_true, decide_eq_true_eq] at h3
        simp only [isValidScalar, Bool.and_eq_true, decide_eq_true_eq,
          Bool.not_eq_true', Bool.and_eq_false_iff, decide_eq_false_iff_not]
        omega
      · intro n hn; exact ih n hn
  | case5 c1 h1 h2 c2 rest2 h3 ih =>
      rw [pyDecodeUtf8.eq_def]; simp [h1, h2, h3]
      intro n hn
      rcases hn with h | h
      · exact herr n h
      · exact ih n h
  | case6 c1 h1 h2 h3 =>
      rw [pyDecodeUtf8.eq_def]; simp [h1, h2, h3]
      intro n hn; exact herr n (by simpa using hn)
  | case7 c1 h1 h2 h3 c2 h4 =>
      rw [pyDecodeUtf8.eq_def]; simp [h1, h2, h3, h4]
      intro n hn; exact herr n (by simpa using hn)
  | case8 c1 h1 h2 h3 c2 h4 c3 rest2 h5 ih =>
      rw [pyDecodeUtf8.eq_def]; simp [h1, h2, h3, h4, h5]
      constructor
      · simp only [Bool.and_eq_true, decide_eq_true_eq] at h3
        simp only [firstCont3, beq_iff_eq] at h4
        simp only [isContByte, Bool.and_eq_true, decide_eq_true_eq] at h4 h5
        split at h4 <;> rename_i hsplit
        · simp only [Bool.and_eq_true, decide_eq_true_eq] at h4
          simp only [isValidScalar, Bool.and_eq_true, decide_eq_true_eq,
            Bool.not_eq_true', Bool.and_eq_false_iff, decide_eq_false_iff_not]
          omega
        · split at h4 <;> rename_i hsplit2
          · simp only [Bool.and_eq_true, decide_eq_true_eq] at h4
            simp only [isValidScalar, Bool.and_eq_true, decide_eq_true_eq,
              Bool.not_eq_true', Bool.and_eq_false_iff, decide_eq_false_iff_not]
            omega
          · simp only [Bool.and_eq_true, decide_eq_true_eq] at h4
            simp only [isValidScalar, Bool.and_eq_true, decide_eq_true_eq,
              Bool.not_eq_true', Bool.and_eq_false_iff, decide_eq_false_iff_not]
            omega
      · intro n hn; exact ih n hn
  | case9 c1 h1 h2 h3 c2 h4 c3 rest2 h5 ih =>
      rw [pyDecodeUtf8.eq_def]; simp [h1, h2, h3, h4, h5]
      intro n hn
      rcases hn with h | h
      · exact herr n h
      · exact ih n h
  | case10 c1 h1 h2 h3 c2 rest2 h4 ih =>
      rw [pyDecodeUtf8.eq_def]; simp [h1, h2, h3, h4]
      intro n hn
      rcases hn with h | h
      · exact herr n h
      · exact ih n h
  | case11 c1 h1 h2 h3 h4 =>
      rw [pyDecodeUtf8.eq_def]; simp [h1, h2, h3, h4]
      intro n hn; exact herr n (by simpa using hn)
  | case12 c1 h1 h2 h3 h4 c2 h5 =>
      rw [pyDecodeUtf8.eq_def]; simp [h1, h2, h3, h4, h5]
      intro n hn; exact herr n (by simpa using hn)
  | case13 c1 h1 h2 h3 h4 c2 h5 c3 h6 =>
      rw [pyDecodeUtf8.eq_def]; simp [h1, h2, h3, h4, h5, h6]
      intro n hn; exact herr n (by simpa using hn)
  | case14 c1 h1 h2 h3 h4 c2 h5 c3 h6 c4 rest2 h7 ih =>
      rw [pyDecodeUtf8.eq_def]; simp [h1, h2, h3, h4, h5, h6, h7]
      constructor
      · simp only [Bool.and_eq_true, decide_eq_true_eq] at h4
        simp only [firstCont4, beq_iff_eq] at h5
        simp only [isContByte, Bool.and_eq_true, decide_eq_true_eq] at h5 h6 h7
        split at h5 <;> rename_i hsplit
        · simp only [Bool.and_eq_true, decide_eq_true_eq] at h5
          simp only [isValidScalar, Bool.and_eq_true, decide_eq_true_eq,
            Bool.not_eq_true', Bool.and_eq_false_iff, decide_eq_false_iff_not]
          omega
        · split at h5 <;> rename_i hsplit2
          · simp only [Bool.and_eq_true, decide_eq_true_eq] at h5
            simp only [isValidScalar, Bool.and_eq_true, decide_eq_true_eq,
              Bool.not_eq_true', Bool.and_eq_false_iff, decide_eq_false_iff_not]
            omega
          · simp only [Bool.and_eq_true, decide_eq_true_eq] at h5
            simp only [isValidScalar, Bool.and_eq_true, decide_eq_true_eq,
              Bool.not_eq_true', Bool.and_eq_false_iff, decide_eq_false_iff_not]
            omega
      · intro n hn; exact ih n hn
  | case15 c1 h1 h2 h3 h4 c2 h5 c3 h6 c4 rest2 h7 ih =>
      rw [pyDecodeUtf8.eq_def]; simp [h1, h2, h3, h4, h5, h6, h7]
      intro n hn
      rcases hn with h | h
      · exact herr n h
      · exact ih n h
  | case16 c1 h1 h2 h3 h4 c2 h5 c3 rest2 h6 ih =>
      rw [pyDecodeUtf8.eq_def]; simp [h1, h2, h3, h4, h5, h6]
      intro n hn
      rcases hn with h | h
      · exact herr n h
      · exact ih n h
  | case17 c1 h1 h2 h3 h4 c2 rest2 h5 ih =>
      rw [pyDecodeUtf8.eq_def]; simp [h1, h2, h3, h4, h5]
      intro n hn
      rcases hn with h | h
      · exact herr n h
      · exact ih n h
  | case18 c1 rest2 h1 h2 h3 h4 ih =>
      rw [pyDecodeUtf8.eq_def]; simp [h1, h2, h3, h4]
      intro n hn
      rcases hn with h | h
      · exact herr n h
      · exact ih n h

/-- C9 counterexample: on the plain-text file containing the single
byte 0xFF, `extract_resume_text` returns the empty string (the byte is
dropped by `errors="ignore"`), not the one-replacement-character string
that decoding with undecodable bytes REPLACED would give: the claim
that undecodable bytes are replaced fails. -/
theorem c9_replace_counterexample :
    extractResumeText (UploadedFile.txt [0xFF]) ≠
      pyDecodeUtf8 Utf8Errors.replace [0xFF] := by
  have h1 : extractResumeText (UploadedFile.txt [0xFF]) = [] := by
    simp [extractResumeText, pyDecodeUtf8, errOut, isContByte]
  have h2 : pyDecodeUtf8 Utf8Errors.replace [0xFF] = [0xFFFD] := by
    simp [pyDecodeUtf8, errOut, isContByte]
  rw [h1, h2]
  simp

/-- C9 amended: on a plain-text file, `extract_resume_text` decodes the
bytes as UTF-8 with undecodable bytes IGNORED (dropped) rather than
failing, and returns a string for every byte sequence: the result is
always a sequence of valid Unicode scalar values, no longer than the
input. -/
theorem c9_txt_ignore_decoding (bs : List Nat) :
    extractResumeText (UploadedFile.txt bs) = pyDecodeUtf8 Utf8Errors.ignore bs ∧
    (extractResumeText (UploadedFile.txt bs)).length ≤ bs.length ∧
    ∀ n ∈ extractResumeText (UploadedFile.txt bs), isValidScalar n = true := by
  refine ⟨rfl, ?_, ?_⟩
  · exact pyDecodeUtf8_length_le Utf8Errors.ignore bs
  · exact pyDecodeUtf8_valid_scalar Utf8Errors.ignore bs

end Theorems

end StudySuite
